import Mathlib

/-!
Shallow embedding of the timezone-aware temporal column core
(`pandas/core/arrays/datetimetz.py` and `pandas/core/indexes/datetimelike.py`):
physical `int64` buffers with the `iNaT` sentinel, the dtype value object, and
the sort / take / repeat / concat / min / max / argmin / argmax operations,
together with theorems checking the specification's statements about them.

Machine integers are modelled as `Int`; the `int64` range shows up as explicit
bounds (`iNaT ≤ x`) where a statement needs them.  A fallible operation returns
`Except Err` (the error kind and message) or `Option`.
-/

/-- The missing-value sentinel `iNaT` (`NaT`): the smallest signed 64-bit
integer, `np.iinfo('int64').min`. -/
def iNaT : Int := -(2 ^ 63)

/-- Largest signed 64-bit integer, `np.iinfo('int64').max`. -/
def int64max : Int := 2 ^ 63 - 1

/-- The timezone-aware dtype value object (`DatetimeTZDtype` and kin):
resolution unit, optional timezone, and whether the dtype is a period dtype
(`is_period_dtype`).  Two dtypes are equal iff all fields are equal; the
source's `str(dtype)` check is modelled as structural equality because the
string form `datetime64[unit, tz]` determines unit and tz. -/
structure Dtype where
  unit : String
  tz : Option String
  period : Bool
deriving DecidableEq, Repr

/-- `DatetimeTZArray`: a dense buffer of physical int64 timestamps
(UTC-normalized nanoseconds) plus a dtype. -/
structure Column where
  buffer : List Int
  dtype : Dtype
deriving DecidableEq, Repr

/-- The index adapter (`DatetimeIndexOpsMixin`): the physical buffer (`asi8`),
the dtype, and the optional `freq` metadata, modelled by its signed step
count `freq.n`. -/
structure DTIndex where
  buffer : List Int
  dtype : Dtype
  freq : Option Int
deriving DecidableEq, Repr

/-- Error kinds surfaced by the core (`ValueError`, `IndexError`). -/
inductive ErrKind
  | valueError
  | indexError
deriving DecidableEq, Repr

/-- An error: kind plus message. -/
structure Err where
  kind : ErrKind
  msg : String
deriving DecidableEq, Repr

/-- `hasnans`: whether the physical buffer contains the sentinel. -/
def hasnans (l : List Int) : Bool := l.any (fun x => x == iNaT)

/-- `is_monotonic` (monotone non-decreasing) on the physical buffer. -/
def monoB : List Int → Bool
  | [] => true
  | [_] => true
  | a :: b :: t => decide (a ≤ b) && monoB (b :: t)

/-- `DatetimeIndexOpsMixin.min`: quick path when the index is non-empty,
monotonic and its first physical value is not the sentinel; otherwise mask
out sentinels and aggregate; numpy's `ValueError` on an empty aggregation is
caught and becomes the NA value (`none`). -/
def colMin (idx : DTIndex) : Option Int :=
  let i8 := idx.buffer
  if 0 < i8.length ∧ monoB i8 = true ∧ i8.headD 0 ≠ iNaT then
    some (i8.headD 0)
  else if hasnans i8 then
    (i8.filter (fun x => x != iNaT)).min?
  else
    i8.min?

/-- `DatetimeIndexOpsMixin.max`: quick path keyed on the last physical value
(`i8[-1]`), otherwise the masked aggregation, as in `colMin`. -/
def colMax (idx : DTIndex) : Option Int :=
  let i8 := idx.buffer
  if 0 < i8.length ∧ monoB i8 = true ∧ i8.getLastD 0 ≠ iNaT then
    some (i8.getLastD 0)
  else if hasnans i8 then
    (i8.filter (fun x => x != iNaT)).max?
  else
    i8.max?

/-- The general (mask-and-aggregate) path of `DatetimeIndexOpsMixin.min`,
without the monotonic quick check. -/
def colMinGeneral (idx : DTIndex) : Option Int :=
  let i8 := idx.buffer
  if hasnans i8 then (i8.filter (fun x => x != iNaT)).min? else i8.min?

/-- The general (mask-and-aggregate) path of `DatetimeIndexOpsMixin.max`,
without the monotonic quick check. -/
def colMaxGeneral (idx : DTIndex) : Option Int :=
  let i8 := idx.buffer
  if hasnans i8 then (i8.filter (fun x => x != iNaT)).max? else i8.max?

/-- Position of the first minimum (`np.argmin`), accumulator form. -/
def argminAux : Int → Nat → Nat → List Int → Nat
  | _, bestIdx, _, [] => bestIdx
  | best, bestIdx, cur, x :: t =>
    if x < best then argminAux x cur (cur + 1) t
    else argminAux best bestIdx (cur + 1) t

/-- `np.argmin` on a list; `none` models the `ValueError` on an empty array. -/
def argminIdx : List Int → Option Nat
  | [] => none
  | a :: t => some (argminAux a 0 1 t)

/-- Position of the first maximum (`np.argmax`), accumulator form. -/
def argmaxAux : Int → Nat → Nat → List Int → Nat
  | _, bestIdx, _, [] => bestIdx
  | best, bestIdx, cur, x :: t =>
    if best < x then argmaxAux x cur (cur + 1) t
    else argmaxAux best bestIdx (cur + 1) t

/-- `np.argmax` on a list; `none` models the `ValueError` on an empty array. -/
def argmaxIdx : List Int → Option Nat
  | [] => none
  | a :: t => some (argmaxAux a 0 1 t)

/-- `DatetimeIndexOpsMixin.argmin`: `-1` when every entry is the sentinel;
otherwise sentinel positions are overwritten with `int64max` before
`np.argmin`. -/
def colArgmin (idx : DTIndex) : Option Int :=
  let i8 := idx.buffer
  if hasnans i8 then
    if i8.all (fun x => x == iNaT) then some (-1)
    else (argminIdx (i8.map (fun x => if x = iNaT then int64max else x))).map
      (fun n => (n : Int))
  else
    (argminIdx i8).map (fun n => (n : Int))

/-- `DatetimeIndexOpsMixin.argmax`: `-1` when every entry is the sentinel;
otherwise sentinel positions are overwritten with `0` before `np.argmax`. -/
def colArgmax (idx : DTIndex) : Option Int :=
  let i8 := idx.buffer
  if hasnans i8 then
    if i8.all (fun x => x == iNaT) then some (-1)
    else (argmaxIdx (i8.map (fun x => if x = iNaT then (0 : Int) else x))).map
      (fun n => (n : Int))
  else
    (argmaxIdx i8).map (fun n => (n : Int))

/-- Modelled from the spec: the external sorting kernel (`np.sort`) used by
`sort_values` — per §4.7/§6 a stable sort over the physical integers (the
generic numeric-array sorting primitive is an external collaborator, not under
`src/`); the sentinel participates as the ordinary integer `INT64_MIN`. -/
def npSort (l : List Int) : List Int := l.insertionSort (· ≤ ·)

/-- `DatetimeIndexOpsMixin.sort_values` (the `return_indexer=False` path; the
indexer path orders by `argsort` over the same physical integers and reverses
the indexer when descending, giving the same ordering): sort the physical
values ascending, flip the sign of a non-period `freq` when the requested
direction opposes its sign, and reverse the sorted buffer when descending. -/
def sortValues (idx : DTIndex) (ascending : Bool) : DTIndex :=
  let sorted_values := npSort idx.buffer
  let freq : Option Int :=
    match idx.freq with
    | none => none
    | some n =>
      if idx.dtype.period then some n
      else if 0 < n ∧ ascending = false then some (-n)
      else if n < 0 ∧ ascending = true then some (-n)
      else some n
  let sv := if ascending then sorted_values else sorted_values.reverse
  { buffer := sv, dtype := idx.dtype, freq := freq }

/-- The `datetime64[ns, US/Central]` dtype used by the concrete examples. -/
def dtypeTZ : Dtype := ⟨"ns", some "US/Central", false⟩

/-- The column `[ts(2000-01-02), NaT, ts(2000-01-01)]` of the specification's
sorting example, as physical UTC nanoseconds. -/
def sortIdx0 : DTIndex :=
  ⟨[946771200000000000, iNaT, 946684800000000000], dtypeTZ, none⟩

/-- Positional gather over a buffer (all indices assumed canonical
non-negative): element `v` of `indices` selects `buffer[v]`. -/
def gatherList (values : List Int) (indices : List Int) : List Int :=
  indices.map (fun v => values.getD v.toNat 0)

/-- Modelled from the spec: the gather-with-fill kernel
(`pandas.core.algorithms.take`, an external collaborator of §6, not under
`src/`).  With `allow_fill`, position `-1` populates `fill_value` and any
other out-of-range position fails with `IndexError`; without `allow_fill`,
negative positions follow Python-style wraparound. -/
def algosTake (values : List Int) (indices : List Int) (allow_fill : Bool)
    (fill_value : Int) : Except Err (List Int) :=
  let n : Int := values.length
  if allow_fill then
    if indices.any (fun v => decide (v < -1) || decide (n ≤ v)) then
      Except.error ⟨ErrKind.indexError, "indices are out-of-bounds"⟩
    else
      Except.ok (indices.map (fun v =>
        if v = -1 then fill_value else values.getD v.toNat 0))
  else
    if indices.any (fun v => decide (v < -n) || decide (n ≤ v)) then
      Except.error ⟨ErrKind.indexError, "indices are out-of-bounds"⟩
    else
      Except.ok (indices.map (fun v =>
        values.getD (if v < 0 then v + n else v).toNat 0))

/-- `DatetimeTZArray.take`: delegates to the gather kernel, always passing the
dtype's own NA value (`NaT`, physically `iNaT`) as the kernel's fill value;
the caller-supplied `fill_value` argument does not reach the kernel. -/
def arrayTake (c : Column) (indices : List Int) (allow_fill : Bool)
    (fill_value : Option Int) : Except Err Column :=
  (algosTake c.buffer indices allow_fill iNaT).map
    (fun res => ⟨res, c.dtype⟩)

/-- Modelled from the spec: `Index._assert_take_fillable` (base index
machinery, not under `src/`), per §4.3: with `allow_fill`, fill semantics with
the NA value `iNaT`; without it, wraparound semantics. -/
def assertTakeFillable (values : List Int) (indices : List Int)
    (allow_fill : Bool) : Except Err (List Int) :=
  if allow_fill then algosTake values indices true iNaT
  else algosTake values indices false iNaT

/-- An arithmetic progression of `count` integers starting at `start` with
step `step`. -/
def apList (start step : Int) (count : Nat) : List Int :=
  (List.range count).map (fun (i : Nat) => start + step * (i : Int))

/-- A slice: start, step, and number of elements. -/
structure SliceSpec where
  start : Int
  step : Int
  count : Nat
deriving DecidableEq, Repr

/-- Modelled from the spec: the contiguous-slice detection
(`lib.maybe_indices_to_slice`, an external kernel of §6, not under `src/`),
per §4.3: when `indices` forms an in-range arithmetic progression with
non-zero step, return the corresponding slice (a single index becomes a
one-element slice of step `1`). -/
def maybeIndicesToSlice (indices : List Int) (n : Nat) : Option SliceSpec :=
  match indices with
  | [] => none
  | a :: rest =>
    let k : Int := match rest with | [] => 1 | b :: _ => b - a
    if k ≠ 0 ∧ indices = apList a k indices.length ∧
        ∀ v ∈ indices, 0 ≤ v ∧ v < (n : Int) then
      some ⟨a, k, indices.length⟩
    else none

/-- Extraction of a slice from a buffer: walk from `start` by `step`,
`count` elements. -/
def sliceGather (values : List Int) (start step : Int) : Nat → List Int
  | 0 => []
  | m + 1 => values.getD start.toNat 0 :: sliceGather values (start + step) step m

/-- Modelled from the spec: `self[slice]` on the index adapter (generic index
`__getitem__`, not under `src/`), per §3: slicing is a shape-regular operation
that keeps `freq`, scaled by the slice step. -/
def getitemSlice (idx : DTIndex) (s : SliceSpec) : DTIndex :=
  { buffer := sliceGather idx.buffer s.start s.step s.count
  , dtype := idx.dtype
  , freq := idx.freq.map (fun f => f * s.step) }

/-- The general gather path of `DatetimeIndexOpsMixin.take` (no slice
detection): gather via `_assert_take_fillable`, then keep `freq` only for a
period dtype. -/
def idxTakeNoSlice (idx : DTIndex) (indices : List Int) (allow_fill : Bool) :
    Except Err DTIndex :=
  match assertTakeFillable idx.buffer indices allow_fill with
  | Except.ok taken =>
    Except.ok ⟨taken, idx.dtype, if idx.dtype.period then idx.freq else none⟩
  | Except.error e => Except.error e

/-- `DatetimeIndexOpsMixin.take`: first try the contiguous-slice detection and
return `self[slice]` on success, otherwise the general gather path. -/
def idxTake (idx : DTIndex) (indices : List Int) (allow_fill : Bool) :
    Except Err DTIndex :=
  match maybeIndicesToSlice indices idx.buffer.length with
  | some s => Except.ok (getitemSlice idx s)
  | none => idxTakeNoSlice idx indices allow_fill

/-- `DatetimeIndexOpsMixin.repeat` with a uniform count: each element of the
physical buffer is repeated `n` times in place (`np.repeat`); the dtype is
kept, and `freq` is kept for a period dtype but reset to `None` otherwise. -/
def idxRepeat (idx : DTIndex) (n : Nat) : DTIndex :=
  { buffer := (idx.buffer.map (fun x => List.replicate n x)).flatten
  , dtype := idx.dtype
  , freq := if idx.dtype.period then idx.freq else none }

/-- `DatetimeTZArray._concat_same_type`: asserts all inputs share one dtype
(`none` models the `AssertionError`, also hit for an empty input list) and
concatenates the physical buffers in argument order. -/
def concatSameType (to_concat : List Column) : Option Column :=
  match to_concat with
  | [] => none
  | c :: rest =>
    if rest.all (fun x => x.dtype == c.dtype) then
      some ⟨(to_concat.map Column.buffer).flatten, c.dtype⟩
    else none

/-- `DatetimeIndexOpsMixin._concat_same_dtype`: fails with
`ValueError('to_concat must have the same tz')` unless the set of dtype
strings of the inputs has exactly one element (the string form determines
unit and tz, so this is dtype equality; an empty input list also fails);
then concatenates the buffers, keeping `freq` only for a period dtype. -/
def concatSameDtype (self : DTIndex) (to_concat : List Column) :
    Except Err DTIndex :=
  match to_concat with
  | [] => Except.error ⟨ErrKind.valueError, "to_concat must have the same tz"⟩
  | c :: rest =>
    if rest.all (fun x => x.dtype == c.dtype) then
      Except.ok ⟨(to_concat.map Column.buffer).flatten, c.dtype,
        if self.dtype.period then self.freq else none⟩
    else
      Except.error ⟨ErrKind.valueError, "to_concat must have the same tz"⟩

/-- An instant-like scalar: the missing scalar `NaT`, or a timestamp with a
physical value and an optional timezone. -/
inductive Scalar
  | naT
  | stamp (value : Int) (tz : Option String)
deriving DecidableEq, Repr

/-- The `tz` attribute of a scalar; `NaT.tz` is `None`. -/
def Scalar.tzOf : Scalar → Option String
  | Scalar.naT => none
  | Scalar.stamp _ z => z

/-- Physical value of a scalar: the sentinel for `NaT`. -/
def physOf : Scalar → Int
  | Scalar.naT => iNaT
  | Scalar.stamp v _ => v

/-- `to_array(values, tz)`: the dense physical buffer plus the
`datetime64[ns, tz]` dtype (the `DatetimeTZDtype` constructor with an optional
tz is modelled from the spec's §3 dtype value object; it is not under
`src/`). -/
def toArray (scalars : List Scalar) (tz : Option String) : Column :=
  ⟨scalars.map physOf, ⟨"ns", tz, false⟩⟩

/-- `DatetimeTZArray._from_sequence`: when `dtype` is omitted, build the dtype
from `scalars[0].tz` — the first scalar, whether or not it is missing (`none`
models the `IndexError` on an empty input). -/
def fromSequence (scalars : List Scalar) (dtype : Option Dtype) :
    Option Column :=
  match dtype with
  | some d => some (toArray scalars d.tz)
  | none =>
    match scalars with
    | [] => none
    | s :: _ => some (toArray scalars (Scalar.tzOf s))

/-- The timezone of the first non-null scalar, as the specification's words
describe dtype inference (the comparison definition for the refinement
check). -/
def firstNonNullTz (scalars : List Scalar) : Option (Option String) :=
  (scalars.filter (fun s => s != Scalar.naT)).head?.map Scalar.tzOf

/-- A concrete non-period index with `freq` set, for the take examples. -/
def idx6 : DTIndex := ⟨[10, 20, 30], dtypeTZ, some 1⟩

/-- A monotone non-decreasing buffer is bounded below by its head. -/
theorem monoB_cons_le (a : Int) (t : List Int) (h : monoB (a :: t) = true) :
    ∀ x ∈ a :: t, a ≤ x := by
  induction t generalizing a with
  | nil =>
    intro x hx
    rw [List.mem_singleton] at hx
    exact le_of_eq hx.symm
  | cons b t2 ih =>
    intro x hx
    rw [monoB] at h
    have h2 : a ≤ b ∧ monoB (b :: t2) = true := by simpa using h
    rcases List.mem_cons.mp hx with rfl | hx2
    · exact le_refl x
    · exact le_trans h2.1 (ih b h2.2 x hx2)

/-- A monotone non-decreasing buffer is bounded above by its last element. -/
theorem monoB_le_getLastD : ∀ l : List Int, monoB l = true →
    ∀ x ∈ l, x ≤ l.getLastD 0
  | [], _, x, hx => by simp at hx
  | [a], _, x, hx => by
    rw [List.mem_singleton] at hx
    simp [hx]
  | a :: b :: t, h, x, hx => by
    rw [monoB] at h
    have h2 : a ≤ b ∧ monoB (b :: t) = true := by simpa using h
    have hrec := monoB_le_getLastD (b :: t) h2.2
    rw [List.getLastD_cons, List.getLastD_cons]
    rcases List.mem_cons.mp hx with rfl | hx2
    · calc x ≤ b := h2.1
        _ ≤ (b :: t).getLastD 0 := hrec b (List.mem_cons_self b t)
        _ = t.getLastD b := by rw [List.getLastD_cons]
    · have hx3 := hrec x hx2
      rwa [List.getLastD_cons] at hx3

/-- `List.min?` of an integer list is the least member. -/
theorem intMin?_eq_some (l : List Int) (a : Int) (hmem : a ∈ l)
    (hle : ∀ b ∈ l, a ≤ b) : l.min? = some a := by
  have hanti : Std.Antisymm (α := Int) (· ≤ ·) := ⟨fun h1 h2 => le_antisymm h1 h2⟩
  rw [List.min?_eq_some_iff]
  · exact ⟨hmem, hle⟩
  · exact fun b => le_refl b
  · exact fun b c => min_choice b c
  · exact fun b c d => le_min_iff

/-- `List.max?` of an integer list is the greatest member. -/
theorem intMax?_eq_some (l : List Int) (a : Int) (hmem : a ∈ l)
    (hle : ∀ b ∈ l, b ≤ a) : l.max? = some a := by
  have hanti : Std.Antisymm (α := Int) (· ≤ ·) := ⟨fun h1 h2 => le_antisymm h1 h2⟩
  rw [List.max?_eq_some_iff]
  · exact ⟨hmem, hle⟩
  · exact fun b => le_refl b
  · exact fun b c => max_choice b c
  · exact fun b c d => max_le_iff

/-- Claim C3: on a non-empty all-sentinel column, `min` and `max` return the
missing marker (`none`, boxing `NaT`) and `argmin`/`argmax` return `-1`. -/
theorem minmax_all_missing (idx : DTIndex) (hne : idx.buffer ≠ [])
    (hall : ∀ x ∈ idx.buffer, x = iNaT) :
    colMin idx = none ∧ colMax idx = none ∧
    colArgmin idx = some (-1) ∧ colArgmax idx = some (-1) := by
  obtain ⟨a, t, hbt⟩ : ∃ a t, idx.buffer = a :: t := by
    cases hb : idx.buffer with
    | nil => exact absurd hb hne
    | cons a t => exact ⟨a, t, rfl⟩
  have ha : a = iNaT := hall a (by rw [hbt]; exact List.mem_cons_self a t)
  have hhas : hasnans idx.buffer = true := by
    rw [hbt]
    simp [hasnans, List.any_cons, ha]
  have hhead : idx.buffer.headD 0 = iNaT := by
    rw [hbt]
    simpa using ha
  have hlast : idx.buffer.getLastD 0 = iNaT := by
    rw [hbt, List.getLastD_cons]
    exact hall _ (by rw [hbt]; exact List.getLastD_mem_cons t a)
  have hfilter : idx.buffer.filter (fun x => x != iNaT) = [] := by
    rw [List.filter_eq_nil_iff]
    intro x hx
    simp [hall x hx]
  have hallb : idx.buffer.all (fun x => x == iNaT) = true := by
    rw [List.all_eq_true]
    intro x hx
    simp [hall x hx]
  refine ⟨?_, ?_, ?_, ?_⟩
  · rw [colMin]
    rw [if_neg (fun h => h.2.2 hhead), if_pos hhas, hfilter]
    rfl
  · rw [colMax]
    rw [if_neg (fun h => h.2.2 hlast), if_pos hhas, hfilter]
    rfl
  · rw [colArgmin, if_pos hhas, if_pos hallb]
  · rw [colArgmax, if_pos hhas, if_pos hallb]

/-- Claim C3 witness: the two-element all-sentinel column. -/
theorem minmax_all_missing_witness :
    ([iNaT, iNaT] ≠ ([] : List Int)) ∧
    (colMin ⟨[iNaT, iNaT], ⟨"ns", some "US/Central", false⟩, none⟩ = none ∧
     colMax ⟨[iNaT, iNaT], ⟨"ns", some "US/Central", false⟩, none⟩ = none ∧
     colArgmin ⟨[iNaT, iNaT], ⟨"ns", some "US/Central", false⟩, none⟩ = some (-1) ∧
     colArgmax ⟨[iNaT, iNaT], ⟨"ns", some "US/Central", false⟩, none⟩ = some (-1)) :=
  ⟨by decide, minmax_all_missing ⟨[iNaT, iNaT], ⟨"ns", some "US/Central", false⟩, none⟩
    (by decide) (by decide)⟩

/-- Claim C4 (failing input): on buffer `[iNaT, -5]` — a sentinel followed by a
pre-epoch instant — `argmax` returns position `0`, which indexes the sentinel
entry rather than a non-missing one (the only non-missing entry is at `1`):
masking sentinels with `0` before `np.argmax` fails when every valid value is
negative. -/
theorem argmax_pre_epoch_returns_missing_position :
    colArgmax ⟨[iNaT, -5], ⟨"ns", some "US/Central", false⟩, none⟩ = some 0 ∧
    [iNaT, (-5 : Int)].getD 0 0 = iNaT ∧ iNaT ≠ (-5 : Int) := by
  refine ⟨by decide, by decide, by decide⟩

/-- Claim C7: when the column is monotonic and non-missing at the relevant
boundary (first element for `min`, last for `max`), the monotonic fast path
returns exactly the boundary value, and the general mask-and-aggregate path
returns the same value. -/
theorem minmax_fast_path_agrees (idx : DTIndex) (hne : idx.buffer ≠ [])
    (hmono : monoB idx.buffer = true)
    (hrange : ∀ x ∈ idx.buffer, iNaT ≤ x) :
    (idx.buffer.headD 0 ≠ iNaT →
      colMin idx = some (idx.buffer.headD 0) ∧
      colMinGeneral idx = some (idx.buffer.headD 0)) ∧
    (idx.buffer.getLastD 0 ≠ iNaT →
      colMax idx = some (idx.buffer.getLastD 0) ∧
      colMaxGeneral idx = some (idx.buffer.getLastD 0)) := by
  obtain ⟨a, t, hbt⟩ : ∃ a t, idx.buffer = a :: t := by
    cases hb : idx.buffer with
    | nil => exact absurd hb hne
    | cons a t => exact ⟨a, t, rfl⟩
  have hlen : 0 < idx.buffer.length := by rw [hbt]; simp
  have hheadle : ∀ x ∈ idx.buffer, idx.buffer.headD 0 ≤ x := by
    rw [hbt]
    exact monoB_cons_le a t (hbt ▸ hmono)
  have hlastge : ∀ x ∈ idx.buffer, x ≤ idx.buffer.getLastD 0 :=
    monoB_le_getLastD idx.buffer hmono
  have hheadmem : idx.buffer.headD 0 ∈ idx.buffer := by
    rw [hbt]
    exact List.mem_cons_self a t
  have hlastmem : idx.buffer.getLastD 0 ∈ idx.buffer := by
    rw [hbt, List.getLastD_cons]
    exact List.getLastD_mem_cons t a
  constructor
  · intro hhd
    have hnonan : hasnans idx.buffer = false := by
      rw [hasnans, List.any_eq_false]
      intro x hx
      simp only [beq_iff_eq]
      intro hxe
      exact hhd (le_antisymm (hxe ▸ hheadle x hx) (hrange _ hheadmem))
    constructor
    · rw [colMin, if_pos ⟨hlen, hmono, hhd⟩]
    · rw [colMinGeneral]
      simp only [hnonan, Bool.false_eq_true, if_false]
      exact intMin?_eq_some _ _ hheadmem hheadle
  · intro hlst
    constructor
    · rw [colMax, if_pos ⟨hlen, hmono, hlst⟩]
    · rw [colMaxGeneral]
      by_cases hnan : hasnans idx.buffer = true
      · simp only [hnan, if_true]
        refine intMax?_eq_some _ _ ?_ ?_
        · rw [List.mem_filter]
          exact ⟨hlastmem, by simpa using hlst⟩
        · intro b hb
          exact hlastge b (List.mem_of_mem_filter hb)
      · simp only [hnan, if_false]
        exact intMax?_eq_some _ _ hlastmem hlastge

/-- Claim C7 witness: the monotonic two-element column `[1, 2]`. -/
theorem minmax_fast_path_agrees_witness :
    (([1, 2] : List Int) ≠ []) ∧ monoB [1, 2] = true ∧
    (∀ x ∈ ([1, 2] : List Int), iNaT ≤ x) ∧
    ((([1, 2] : List Int).headD 0 ≠ iNaT →
       colMin ⟨[1, 2], ⟨"ns", some "US/Central", false⟩, none⟩ =
         some (([1, 2] : List Int).headD 0) ∧
       colMinGeneral ⟨[1, 2], ⟨"ns", some "US/Central", false⟩, none⟩ =
         some (([1, 2] : List Int).headD 0)) ∧
     (([1, 2] : List Int).getLastD 0 ≠ iNaT →
       colMax ⟨[1, 2], ⟨"ns", some "US/Central", false⟩, none⟩ =
         some (([1, 2] : List Int).getLastD 0) ∧
       colMaxGeneral ⟨[1, 2], ⟨"ns", some "US/Central", false⟩, none⟩ =
         some (([1, 2] : List Int).getLastD 0))) :=
  ⟨by decide, by decide, by decide,
    minmax_fast_path_agrees ⟨[1, 2], ⟨"ns", some "US/Central", false⟩, none⟩
      (by decide) (by decide) (by decide)⟩

/-- Claim C1 counterexample: sorting `[ts(2000-01-02), NaT, ts(2000-01-01)]`
ascending yields `[NaT, ts(2000-01-01), ts(2000-01-02)]` — the sentinel lands
first, not last, because `sort_values` sorts the physical integers and the
sentinel is `INT64_MIN`; the claimed ascending result `[ts(2000-01-01),
ts(2000-01-02), NaT]` is therefore wrong. -/
theorem sortValues_ascending_sentinel_first :
    (sortValues sortIdx0 true).buffer =
      [iNaT, 946684800000000000, 946771200000000000] ∧
    ([iNaT, (946684800000000000 : Int), 946771200000000000] ≠
      [946684800000000000, 946771200000000000, iNaT]) := by
  exact ⟨by decide, by decide⟩

/-- Claim C1 amended: `sort_values` sorts the physical integers, so (within the
int64 range) sentinel entries — being `INT64_MIN` — form a prefix of the
ascending result; the descending result is the exact reversal of the ascending
one, so sentinels form a suffix there; the ascending buffer is ordered and a
permutation of the input; the dtype is preserved. -/
theorem sortValues_sentinel_placement (idx : DTIndex)
    (hrange : ∀ x ∈ idx.buffer, iNaT ≤ x) :
    ((sortValues idx false).buffer = (sortValues idx true).buffer.reverse) ∧
    (sortValues idx true).buffer.Sorted (· ≤ ·) ∧
    ((sortValues idx true).buffer).Perm idx.buffer ∧
    (sortValues idx true).dtype = idx.dtype ∧
    (∀ i j : Fin (sortValues idx true).buffer.length, i ≤ j →
      (sortValues idx true).buffer.get j = iNaT →
      (sortValues idx true).buffer.get i = iNaT) := by
  have hso : ((sortValues idx true).buffer).Sorted (· ≤ ·) :=
    List.sorted_insertionSort (· ≤ ·) idx.buffer
  have hperm : ((sortValues idx true).buffer).Perm idx.buffer :=
    List.perm_insertionSort (· ≤ ·) idx.buffer
  refine ⟨rfl, hso, hperm, rfl, ?_⟩
  intro i j hij hj
  rcases lt_or_eq_of_le hij with hlt | heq
  · have hle : (sortValues idx true).buffer.get i ≤
        (sortValues idx true).buffer.get j := by
      have := (List.pairwise_iff_get.mp hso) i j hlt
      exact this
    have hmem : (sortValues idx true).buffer.get i ∈ idx.buffer :=
      hperm.subset (List.get_mem _ i.1 i.2)
    exact le_antisymm (hj ▸ hle) (hrange _ hmem)
  · rw [heq]
    exact hj

/-- Claim C1 witness: the specification's concrete three-element example;
ascending places the sentinel first, descending places it last. -/
theorem sortValues_sentinel_placement_witness :
    (∀ x ∈ sortIdx0.buffer, iNaT ≤ x) ∧
    (sortValues sortIdx0 false).buffer =
      [946771200000000000, 946684800000000000, iNaT] ∧
    (((sortValues sortIdx0 false).buffer =
        (sortValues sortIdx0 true).buffer.reverse) ∧
     (sortValues sortIdx0 true).buffer.Sorted (· ≤ ·) ∧
     ((sortValues sortIdx0 true).buffer).Perm sortIdx0.buffer ∧
     (sortValues sortIdx0 true).dtype = sortIdx0.dtype ∧
     (∀ i j : Fin (sortValues sortIdx0 true).buffer.length, i ≤ j →
       (sortValues sortIdx0 true).buffer.get j = iNaT →
       (sortValues sortIdx0 true).buffer.get i = iNaT)) :=
  ⟨by decide, by decide,
    sortValues_sentinel_placement sortIdx0 (by decide)⟩

/-- Claim C10: the array-level `take` ignores the caller-supplied
`fill_value` — any two fill values give identical results — and a `[-1]`
request is filled with the dtype's own missing value `iNaT`. -/
theorem arrayTake_ignores_fill_value (c : Column) (indices : List Int)
    (v1 v2 : Option Int) :
    arrayTake c indices true v1 = arrayTake c indices true v2 ∧
    arrayTake c [-1] true v1 = Except.ok ⟨[iNaT], c.dtype⟩ := by
  constructor
  · rfl
  · have hn : ¬ ((c.buffer.length : Int) ≤ -1) := by
      have h0 : (0 : Int) ≤ (c.buffer.length : Int) := Int.natCast_nonneg _
      omega
    simp [arrayTake, algosTake, hn, Except.map]

/-- Claim C5: with `allow_fill`, taking `[-1]` yields a length-1 all-missing
column regardless of the column's contents; in-range requests fill `-1`
positions with the missing value and gather the rest; any other out-of-range
position fails with `IndexError`. -/
theorem arrayTake_fill_semantics (c : Column) (indices : List Int)
    (fv : Option Int) :
    (arrayTake c [-1] true fv = Except.ok ⟨[iNaT], c.dtype⟩ ∧
      ([iNaT] : List Int).length = 1) ∧
    ((∀ v ∈ indices, -1 ≤ v ∧ v < (c.buffer.length : Int)) →
      arrayTake c indices true fv = Except.ok
        ⟨indices.map (fun v => if v = -1 then iNaT
            else c.buffer.getD v.toNat 0), c.dtype⟩) ∧
    (∀ i ∈ indices, (i < -1 ∨ (c.buffer.length : Int) ≤ i) →
      arrayTake c indices true fv =
        Except.error ⟨ErrKind.indexError, "indices are out-of-bounds"⟩) := by
  refine ⟨⟨?_, rfl⟩, ?_, ?_⟩
  · have hn : ¬ ((c.buffer.length : Int) ≤ -1) := by
      have h0 : (0 : Int) ≤ (c.buffer.length : Int) := Int.natCast_nonneg _
      omega
    simp [arrayTake, algosTake, hn, Except.map]
  · intro hall
    have hany : (indices.any (fun v => decide (v < -1) ||
        decide ((c.buffer.length : Int) ≤ v))) = false := by
      rw [List.any_eq_false]
      intro v hv
      have hv2 := hall v hv
      simp only [Bool.or_eq_true, decide_eq_true_eq, not_or]
      omega
    simp [arrayTake, algosTake, hany, Except.map]
  · intro i hi hoob
    have hany : (indices.any (fun v => decide (v < -1) ||
        decide ((c.buffer.length : Int) ≤ v))) = true := by
      rw [List.any_eq_true]
      refine ⟨i, hi, ?_⟩
      simp only [Bool.or_eq_true, decide_eq_true_eq]
      omega
    simp [arrayTake, algosTake, hany, Except.map]

/-- Claim C5 witness: a one-element column; `[0, -1]` gathers then fills, and
the out-of-range `[5]` fails with `IndexError`. -/
theorem arrayTake_fill_semantics_witness :
    (arrayTake ⟨[100], dtypeTZ⟩ [-1] true none =
      Except.ok ⟨[iNaT], (⟨[100], dtypeTZ⟩ : Column).dtype⟩) ∧
    ((∀ v ∈ ([0, -1] : List Int),
        -1 ≤ v ∧ v < ((⟨[100], dtypeTZ⟩ : Column).buffer.length : Int)) ∧
      arrayTake ⟨[100], dtypeTZ⟩ [0, -1] true none = Except.ok
        ⟨([0, -1] : List Int).map (fun v => if v = -1 then iNaT
            else (⟨[100], dtypeTZ⟩ : Column).buffer.getD v.toNat 0),
         (⟨[100], dtypeTZ⟩ : Column).dtype⟩) ∧
    ((5 : Int) ∈ ([5] : List Int) ∧
      ((5 : Int) < -1 ∨ ((⟨[100], dtypeTZ⟩ : Column).buffer.length : Int) ≤ 5) ∧
      arrayTake ⟨[100], dtypeTZ⟩ [5] true none =
        Except.error ⟨ErrKind.indexError, "indices are out-of-bounds"⟩) :=
  ⟨(arrayTake_fill_semantics ⟨[100], dtypeTZ⟩ [-1] none).1.1,
   ⟨by decide, (arrayTake_fill_semantics ⟨[100], dtypeTZ⟩ [0, -1] none).2.1
      (by decide)⟩,
   ⟨by decide, by decide,
    (arrayTake_fill_semantics ⟨[100], dtypeTZ⟩ [5] none).2.2 5
      (by decide) (by decide)⟩⟩

/-- All members of a dtype-uniform column list share any two dtypes. -/
theorem dtype_all_eq (c : Column) (rest : List Column)
    (h : rest.all (fun x => x.dtype == c.dtype) = true) :
    ∀ a ∈ c :: rest, ∀ b ∈ c :: rest, a.dtype = b.dtype := by
  have hbase : ∀ a ∈ c :: rest, a.dtype = c.dtype := by
    intro a ha
    rcases List.mem_cons.mp ha with rfl | ha2
    · rfl
    · exact beq_iff_eq.mp (List.all_eq_true.mp h a ha2)
  intro a ha b hb
  rw [hbase a ha, hbase b hb]

/-- Claim C2: `_concat_same_dtype` succeeds only when all inputs share an
identical dtype (unit and timezone); any two inputs with different timezones
make it fail with `ValueError('to_concat must have the same tz')`; the
array-level `_concat_same_type` likewise accepts only dtype-uniform inputs. -/
theorem concatSameDtype_requires_same_tz (self : DTIndex)
    (to_concat : List Column) :
    (∀ r, concatSameDtype self to_concat = Except.ok r →
      ∀ a ∈ to_concat, ∀ b ∈ to_concat, a.dtype = b.dtype) ∧
    ((∃ a ∈ to_concat, ∃ b ∈ to_concat, a.dtype.tz ≠ b.dtype.tz) →
      concatSameDtype self to_concat =
        Except.error ⟨ErrKind.valueError, "to_concat must have the same tz"⟩) ∧
    (∀ r, concatSameType to_concat = some r →
      ∀ a ∈ to_concat, ∀ b ∈ to_concat, a.dtype = b.dtype) := by
  refine ⟨?_, ?_, ?_⟩
  · intro r hr
    cases to_concat with
    | nil => intro a ha; simp at ha
    | cons c rest =>
      rw [concatSameDtype] at hr
      by_cases hall : rest.all (fun x => x.dtype == c.dtype) = true
      · exact dtype_all_eq c rest hall
      · rw [if_neg hall] at hr
        cases hr
  · rintro ⟨a, ha, b, hb, hne⟩
    cases to_concat with
    | nil => simp at ha
    | cons c rest =>
      rw [concatSameDtype]
      by_cases hall : rest.all (fun x => x.dtype == c.dtype) = true
      · exact absurd (congrArg Dtype.tz (dtype_all_eq c rest hall a ha b hb)) hne
      · rw [if_neg hall]
  · intro r hr
    cases to_concat with
    | nil => intro a ha; simp at ha
    | cons c rest =>
      rw [concatSameType] at hr
      by_cases hall : rest.all (fun x => x.dtype == c.dtype) = true
      · exact dtype_all_eq c rest hall
      · rw [if_neg hall] at hr
        cases hr

/-- Claim C2 witness: concatenating a UTC column with a US/Central column
fails with the `must have the same tz` `ValueError`. -/
theorem concatSameDtype_requires_same_tz_witness :
    (∃ a ∈ [(⟨[1], ⟨"ns", some "UTC", false⟩⟩ : Column), ⟨[2], dtypeTZ⟩],
      ∃ b ∈ [(⟨[1], ⟨"ns", some "UTC", false⟩⟩ : Column), ⟨[2], dtypeTZ⟩],
        a.dtype.tz ≠ b.dtype.tz) ∧
    concatSameDtype ⟨[], dtypeTZ, none⟩
        [⟨[1], ⟨"ns", some "UTC", false⟩⟩, ⟨[2], dtypeTZ⟩] =
      Except.error ⟨ErrKind.valueError, "to_concat must have the same tz"⟩ :=
  ⟨by decide,
   (concatSameDtype_requires_same_tz ⟨[], dtypeTZ, none⟩
      [⟨[1], ⟨"ns", some "UTC", false⟩⟩, ⟨[2], dtypeTZ⟩]).2.1 (by decide)⟩

/-- Claim C8 counterexample: for a period-dtype index carrying a freq,
`repeat` keeps the freq instead of resetting it to `None`, contradicting the
claim's "freq metadata is reset to None — including when the column's dtype
is a regular-period type". -/
theorem idxRepeat_period_keeps_freq :
    (idxRepeat ⟨[5], ⟨"D", none, true⟩, some 1⟩ 2).freq = some 1 ∧
    some (1 : Int) ≠ (none : Option Int) := ⟨rfl, by decide⟩

/-- Claim C8 amended: `repeat` expands each element `n` times in place and
preserves the dtype; `freq` is reset to `None` exactly for non-period dtypes,
while a period dtype keeps its freq. -/
theorem idxRepeat_expands_preserving_dtype (idx : DTIndex) (n : Nat) :
    (idxRepeat idx n).buffer =
      (idx.buffer.map (fun x => List.replicate n x)).flatten ∧
    (idxRepeat idx n).buffer.length = idx.buffer.length * n ∧
    (idxRepeat idx n).dtype = idx.dtype ∧
    (idxRepeat idx n).freq = (if idx.dtype.period then idx.freq else none) := by
  refine ⟨rfl, ?_, rfl, rfl⟩
  show ((idx.buffer.map (fun x => List.replicate n x)).flatten).length =
    idx.buffer.length * n
  induction idx.buffer with
  | nil => simp
  | cons a t ih =>
    simp only [List.map_cons, List.flatten_cons, List.length_append,
      List.length_replicate, ih, List.length_cons]
    ring

/-- Claim C9 counterexample: with `dtype` omitted and input
`[NaT, ts(tz='US/Central')]`, `_from_sequence` reads `scalars[0].tz`, which
for the missing scalar is `None`, so the inferred dtype timezone is `None` —
not the `US/Central` carried by the first non-null scalar. -/
theorem fromSequence_null_first_scalar :
    (fromSequence [Scalar.naT, Scalar.stamp 0 (some "US/Central")] none).map
        (fun c => c.dtype.tz) = some none ∧
    firstNonNullTz [Scalar.naT, Scalar.stamp 0 (some "US/Central")] =
      some (some "US/Central") ∧
    (some "US/Central" : Option String) ≠ none :=
  ⟨rfl, rfl, by decide⟩

/-- Claim C9 amended: with `dtype` omitted and a non-empty input,
`_from_sequence` infers the timezone from the first scalar of the input —
whether or not it is missing — and stores the physical values. -/
theorem fromSequence_infers_from_first_scalar (s : Scalar)
    (rest : List Scalar) :
    fromSequence (s :: rest) none =
      some ⟨(s :: rest).map physOf, ⟨"ns", Scalar.tzOf s, false⟩⟩ := rfl

/-- An arithmetic progression unfolds one step at a time. -/
theorem apList_succ (a k : Int) (m : Nat) :
    apList a k (m + 1) = a :: apList (a + k) k m := by
  rw [apList, apList, List.range_succ_eq_map, List.map_cons, List.map_map]
  congr 1
  · simp
  · apply List.map_congr_left
    intro i hi
    simp only [Function.comp_apply]
    push_cast
    ring

/-- Slice extraction coincides with the elementwise gather of the
corresponding arithmetic progression. -/
theorem sliceGather_eq_gather (buf : List Int) (k : Int) (m : Nat) :
    ∀ a : Int, sliceGather buf a k m = gatherList buf (apList a k m) := by
  induction m with
  | zero =>
    intro a
    simp [sliceGather, gatherList, apList]
  | succ m ih =>
    intro a
    have ht := ih (a + k)
    rw [gatherList] at ht ⊢
    rw [sliceGather, apList_succ, List.map_cons, ← ht]

/-- Inversion of the contiguous-slice detection: a successful detection means
the indices are exactly the slice's in-range arithmetic progression. -/
theorem maybeIndicesToSlice_inv (indices : List Int) (n : Nat) (s : SliceSpec)
    (hs : maybeIndicesToSlice indices n = some s) :
    indices = apList s.start s.step s.count ∧ s.step ≠ 0 ∧
    (∀ v ∈ indices, 0 ≤ v ∧ v < (n : Int)) := by
  cases indices with
  | nil => simp [maybeIndicesToSlice] at hs
  | cons a rest =>
    simp only [maybeIndicesToSlice] at hs
    split at hs
    · rename_i hcond
      cases hs
      exact ⟨hcond.2.1, hcond.1, hcond.2.2⟩
    · cases hs

/-- On canonical in-range indices, the fillable gather reduces to the plain
elementwise gather, for either `allow_fill` setting. -/
theorem assertTakeFillable_in_range (values : List Int) (indices : List Int)
    (af : Bool) (hr : ∀ v ∈ indices, 0 ≤ v ∧ v < (values.length : Int)) :
    assertTakeFillable values indices af =
      Except.ok (gatherList values indices) := by
  have hfill : algosTake values indices true iNaT =
      Except.ok (gatherList values indices) := by
    have hany : (indices.any (fun v => decide (v < -1) ||
        decide ((values.length : Int) ≤ v))) = false := by
      rw [List.any_eq_false]
      intro v hv
      have hv2 := hr v hv
      simp only [Bool.or_eq_true, decide_eq_true_eq, not_or]
      omega
    simp only [algosTake, if_true, hany, Bool.false_eq_true, if_false,
      gatherList]
    congr 1
    apply List.map_congr_left
    intro v hv
    have hv2 := hr v hv
    rw [if_neg (by omega)]
  have hwrap : algosTake values indices false iNaT =
      Except.ok (gatherList values indices) := by
    have hany : (indices.any (fun v => decide (v < -(values.length : Int)) ||
        decide ((values.length : Int) ≤ v))) = false := by
      rw [List.any_eq_false]
      intro v hv
      have hv2 := hr v hv
      simp only [Bool.or_eq_true, decide_eq_true_eq, not_or]
      omega
    simp only [algosTake, Bool.false_eq_true, if_false, hany, gatherList]
    congr 1
    apply List.map_congr_left
    intro v hv
    have hv2 := hr v hv
    rw [if_neg (by omega)]
  cases af
  · rw [assertTakeFillable, if_neg (by simp)]
    exact hwrap
  · rw [assertTakeFillable, if_pos rfl]
    exact hfill

/-- Claim C6 counterexample: on a non-period index with `freq = 1` and the
arithmetic-progression indices `[0, 1]`, `take` (slice path) keeps the freq
while the general gather path resets it to `None`: values and dtype agree but
freq metadata does not, so the two paths are not identical. -/
theorem idxTake_slice_freq_differs :
    idxTake idx6 [0, 1] true = Except.ok ⟨[10, 20], dtypeTZ, some 1⟩ ∧
    idxTakeNoSlice idx6 [0, 1] true = Except.ok ⟨[10, 20], dtypeTZ, none⟩ ∧
    (Except.ok (⟨[10, 20], dtypeTZ, some 1⟩ : DTIndex) : Except Err DTIndex) ≠
      Except.ok ⟨[10, 20], dtypeTZ, none⟩ := by
  refine ⟨rfl, rfl, fun h => ?_⟩
  injection h with h2
  exact Option.noConfusion (congrArg DTIndex.freq h2)

/-- Claim C6 amended: when the indices form an in-range arithmetic progression
(the slice detection fires), the slice path and the general gather path agree
on values and dtype for every `allow_fill` setting; only the freq metadata
differs — the slice path keeps the step-scaled freq, the gather path resets a
non-period freq to `None`. -/
theorem idxTake_slice_matches_gather_values (idx : DTIndex)
    (indices : List Int) (s : SliceSpec) (af : Bool)
    (hs : maybeIndicesToSlice indices idx.buffer.length = some s) :
    idxTake idx indices af = Except.ok
      ⟨gatherList idx.buffer indices, idx.dtype,
        idx.freq.map (fun f => f * s.step)⟩ ∧
    idxTakeNoSlice idx indices af = Except.ok
      ⟨gatherList idx.buffer indices, idx.dtype,
        if idx.dtype.period then idx.freq else none⟩ := by
  obtain ⟨hap, hk, hr⟩ :=
    maybeIndicesToSlice_inv indices idx.buffer.length s hs
  constructor
  · have hb : sliceGather idx.buffer s.start s.step s.count =
        gatherList idx.buffer indices := by
      rw [sliceGather_eq_gather, ← hap]
    rw [idxTake, hs]
    dsimp only
    unfold getitemSlice
    rw [hb]
  · rw [idxTakeNoSlice, assertTakeFillable_in_range idx.buffer indices af hr]

/-- Claim C6 witness: the slice detection fires on `[0, 1]` against a
three-element buffer, and both paths produce the same values and dtype. -/
theorem idxTake_slice_matches_gather_values_witness :
    maybeIndicesToSlice [0, 1] idx6.buffer.length = some ⟨0, 1, 2⟩ ∧
    (idxTake idx6 [0, 1] true = Except.ok
      ⟨gatherList idx6.buffer [0, 1], idx6.dtype,
        idx6.freq.map (fun f => f * (⟨0, 1, 2⟩ : SliceSpec).step)⟩ ∧
     idxTakeNoSlice idx6 [0, 1] true = Except.ok
      ⟨gatherList idx6.buffer [0, 1], idx6.dtype,
        if idx6.dtype.period then idx6.freq else none⟩) :=
  ⟨by decide,
   idxTake_slice_matches_gather_values idx6 [0, 1] ⟨0, 1, 2⟩ true (by decide)⟩
